import Mathlib

/-!
Verification of the Speed-Editor-to-Mackie MIDI bridge
(`speed-editor-to-mackie.py`).

The source is a single Python class `MackieHandler`.  Pure computations are
embedded as Lean functions; the mutable instance attributes touched by each
method become explicit state records that the method maps to an updated
record plus the externally visible output (MIDI messages sent, LED masks
written).  Python `//` and `%` with a positive divisor are floor division
and nonnegative remainder, which on `Int` is exactly Lean's `/` (`Int.ediv`)
and `%` (`Int.emod`); all divisors in the source (360 and the speed-division
factors 20, 15, 1) are positive literals.  A Python `dict` is an
`Option`-valued function, a Python `set` a `Finset`, and an operation that
can raise (`set.remove`, `dict[...]` on a missing key) returns
`Except`/`Option`.
-/

/-- Modelled from the spec: the device key identifiers used by the bridge.
`SpeedEditorKey` is imported from the repository's `bmd` module, which is
not under `src/`; the bridge uses keys only as opaque identifiers (map/set
members), so the enumeration lists exactly the keys the bridge names and
carries no numeric values. -/
inductive SpeedEditorKey where
  | SHTL | JOG | SCRL
  | IN | OUT | TRIM_IN | TRIM_OUT
  | ROLL | STOP_PLAY | FULL_VIEW | CUT | SPLIT | LIVE_OWR | ESC | TRANS | RIPL_DEL
deriving DecidableEq

/-- Modelled from the spec: jog-LED identifiers from the `bmd` module (not
under `src/`); the bridge only forwards them to the device. -/
inductive SpeedEditorJogLed where
  | SHTL | JOG | SCRL
deriving DecidableEq

/-- Modelled from the spec: device-side rotary encoding modes from the `bmd`
module (not under `src/`); the bridge uses only `RELATIVE_2`. -/
inductive SpeedEditorJogMode where
  | RELATIVE_2
deriving DecidableEq

/-- `class KeyModifiers(enum.IntEnum): NUDGE = 1` (source lines 19-20). -/
inductive KeyModifiers where
  | NUDGE
deriving DecidableEq

namespace MackieHandler

/-- `JOG` dict (source lines 28-32): jog-mode selector keys with their LED
and device rotary mode. -/
def JOG : SpeedEditorKey → Option (SpeedEditorJogLed × SpeedEditorJogMode)
  | SpeedEditorKey.SHTL => some (SpeedEditorJogLed.SHTL, SpeedEditorJogMode.RELATIVE_2)
  | SpeedEditorKey.JOG => some (SpeedEditorJogLed.JOG, SpeedEditorJogMode.RELATIVE_2)
  | SpeedEditorKey.SCRL => some (SpeedEditorJogLed.SCRL, SpeedEditorJogMode.RELATIVE_2)
  | _ => none

/-- `JOG_SPEED_DIV_FACTOR` dict (source lines 34-38). -/
def JOG_SPEED_DIV_FACTOR : SpeedEditorKey → Option Int
  | SpeedEditorKey.SHTL => some 20
  | SpeedEditorKey.JOG => some 15
  | SpeedEditorKey.SCRL => some 1
  | _ => none

/-- `MCU_JOG_CC = 0x3c` (source line 42). -/
def MCU_JOG_CC : Nat := 0x3c

def MCU_STOP : Nat := 0x5D
def MCU_PLAY : Nat := 0x5E
def MCU_REC : Nat := 0x5F
def MCU_UP : Nat := 0x60
def MCU_DOWN : Nat := 0x61
def MCU_LEFT : Nat := 0x62
def MCU_RIGHT : Nat := 0x63
def MCU_ZOOM : Nat := 0x64
def MCU_SCRUB : Nat := 0x65
def MCU_USER_A : Nat := 0x66
def MCU_USER_B : Nat := 0x67
def MCU_F1 : Nat := 0x36
def MCU_F2 : Nat := 0x37

/-- `ZOOM_KEYS` tuple (source line 71). -/
def ZOOM_KEYS : List SpeedEditorKey :=
  [SpeedEditorKey.IN, SpeedEditorKey.OUT, SpeedEditorKey.TRIM_IN, SpeedEditorKey.TRIM_OUT]

/-- `MODIFIER_KEY_MAP` dict (source lines 73-75).  `dict.get` returns
`None` on a missing key, hence the `Option`. -/
def MODIFIER_KEY_MAP : SpeedEditorKey → Option KeyModifiers
  | SpeedEditorKey.ROLL => some KeyModifiers.NUDGE
  | _ => none

/-- `RAMP_THRESHOLD = 5` (source line 77). -/
def RAMP_THRESHOLD : Nat := 5

/-- `RAMP_FACTOR = 5` (source line 78). -/
def RAMP_FACTOR : Nat := 5

/-- The instance attributes read and written by `jog` and
`_set_jog_mode_for_key`: `self.jog_mode` and `self.jog_unsent`. -/
structure JogState where
  jog_mode : SpeedEditorKey
  jog_unsent : Int
deriving DecidableEq

/-- The state of the jog fields right after `__init__` (source lines 91-92):
`self.jog_unsent = 0` and `self._set_jog_mode_for_key(SpeedEditorKey.JOG)`. -/
def initJogState : JogState :=
  { jog_mode := SpeedEditorKey.JOG, jog_unsent := 0 }

/-- `_set_jog_mode_for_key` (source lines 125-130): ignore keys outside the
`JOG` dict, otherwise record the new mode.  The `set_jog_leds` /
`set_jog_mode` calls are output to the device and carry no bridge state. -/
def set_jog_mode_for_key (s : JogState) (key : SpeedEditorKey) : JogState :=
  match JOG key with
  | none => s
  | some _ => { s with jog_mode := key }

/-- The MIDI output of one `jog` call: the signed step count handed to
`send_midi_nudge_msgs` (SHTL mode) or to `send_midi_jog_cc` (other modes),
source lines 143-146. -/
inductive JogEmit where
  | nudge (steps : Int)
  | cc (steps : Int)
deriving DecidableEq

/-- The signed step count carried by a `JogEmit`. -/
def JogEmit.steps : JogEmit → Int
  | JogEmit.nudge n => n
  | JogEmit.cc n => n

/-- `jog` (source lines 132-146).  `value //= 360` and
`self.jog_unsent // speed_div_factor` are Python floor divisions with
positive divisors, i.e. `Int./`.  The dict lookup
`self.JOG_SPEED_DIV_FACTOR[self.jog_mode]` raises on a missing key,
modelled as `none` (never reached from the initial state, where `jog_mode`
stays inside the dict).  Returns the updated state and the emission, if
any. -/
def jog (s : JogState) (value : Int) : Option (JogState × Option JogEmit) :=
  let value := value / 360
  let jog_unsent := s.jog_unsent + value
  match JOG_SPEED_DIV_FACTOR s.jog_mode with
  | none => none
  | some speed_div_factor =>
    let value_to_send := jog_unsent / speed_div_factor
    if value_to_send = 0 then
      some ({ s with jog_unsent := jog_unsent }, none)
    else
      some ({ s with jog_unsent := jog_unsent - value_to_send * speed_div_factor },
        some (if s.jog_mode = SpeedEditorKey.SHTL then JogEmit.nudge value_to_send
              else JogEmit.cc value_to_send))

end MackieHandler

/-- The jog-translation step as the claim states it, with both integer
divisions truncating toward zero (`Int.tdiv`); result shape as in
`MackieHandler.jog`. -/
def jogClaimTrunc (s : MackieHandler.JogState) (raw_delta : Int) :
    Option (MackieHandler.JogState × Option MackieHandler.JogEmit) :=
  let native_units := Int.tdiv raw_delta 360
  let remainder_total := s.jog_unsent + native_units
  match MackieHandler.JOG_SPEED_DIV_FACTOR s.jog_mode with
  | none => none
  | some factor =>
    let steps := Int.tdiv remainder_total factor
    if steps = 0 then
      some ({ s with jog_unsent := remainder_total }, none)
    else
      some ({ s with jog_unsent := remainder_total - steps * factor },
        some (if s.jog_mode = SpeedEditorKey.SHTL then MackieHandler.JogEmit.nudge steps
              else MackieHandler.JogEmit.cc steps))

/-- The jog-translation step as amended: both integer divisions are floor
divisions (Python `//`, toward negative infinity; `Int./` for the positive
divisors in play); otherwise word for word the claim's recipe. -/
def jogClaimFloor (s : MackieHandler.JogState) (raw_delta : Int) :
    Option (MackieHandler.JogState × Option MackieHandler.JogEmit) :=
  let native_units := raw_delta / 360
  let remainder_total := s.jog_unsent + native_units
  match MackieHandler.JOG_SPEED_DIV_FACTOR s.jog_mode with
  | none => none
  | some factor =>
    let steps := remainder_total / factor
    if steps = 0 then
      some ({ s with jog_unsent := remainder_total }, none)
    else
      some ({ s with jog_unsent := remainder_total - steps * factor },
        some (if s.jog_mode = SpeedEditorKey.SHTL then MackieHandler.JogEmit.nudge steps
              else MackieHandler.JogEmit.cc steps))

/-- An event on the jog path: a `jog` call with a raw delta, or a key-press
edge (only jog-mode selector keys affect this path, via
`_set_jog_mode_for_key`; other keys leave the jog state unchanged). -/
inductive BridgeJogEvent where
  | delta (d : Int)
  | press (k : SpeedEditorKey)
deriving DecidableEq

/-- Run a sequence of jog-path events.  Each emission is recorded together
with the speed-division factor of the mode active at that emission.
`none` propagates a `KeyError` from the factor lookup (unreachable from
`initJogState`). -/
def runJog : MackieHandler.JogState → List BridgeJogEvent →
    Option (MackieHandler.JogState × List (Int × Int))
  | s, [] => some (s, [])
  | s, BridgeJogEvent.press k :: es => runJog (MackieHandler.set_jog_mode_for_key s k) es
  | s, BridgeJogEvent.delta d :: es =>
    match MackieHandler.JOG_SPEED_DIV_FACTOR s.jog_mode, MackieHandler.jog s d with
    | some f, some (s1, emit) =>
      match runJog s1 es with
      | none => none
      | some (s2, ems) =>
        some (s2, (match emit with
                   | none => []
                   | some e => [(e.steps, f)]) ++ ems)
    | _, _ => none

/-- The native units contributed by one event: `d / 360` (floor) for a jog
call, nothing for a key press. -/
def eventNative : BridgeJogEvent → Option Int
  | BridgeJogEvent.delta d => some (d / 360)
  | BridgeJogEvent.press _ => none

/-- All device keys the bridge names, in declaration order; used to give
Python's (unspecified) set iteration order a concrete realisation. -/
def SpeedEditorKey.all : List SpeedEditorKey :=
  [SpeedEditorKey.SHTL, SpeedEditorKey.JOG, SpeedEditorKey.SCRL,
   SpeedEditorKey.IN, SpeedEditorKey.OUT, SpeedEditorKey.TRIM_IN, SpeedEditorKey.TRIM_OUT,
   SpeedEditorKey.ROLL, SpeedEditorKey.STOP_PLAY, SpeedEditorKey.FULL_VIEW,
   SpeedEditorKey.CUT, SpeedEditorKey.SPLIT, SpeedEditorKey.LIVE_OWR,
   SpeedEditorKey.ESC, SpeedEditorKey.TRANS, SpeedEditorKey.RIPL_DEL]

/-- Iterate a key set: the keys of the set, in the fixed enumeration order
(Python iterates a `set` in an unspecified order; no claim depends on the
order inside one set, only on set membership). -/
def iterKeys (s : Finset SpeedEditorKey) : List SpeedEditorKey :=
  SpeedEditorKey.all.filter (· ∈ s)

/-- A key edge reported by `MackieHandler.key`: a call to `key_released` or
to `key_pressed` with the given key. -/
inductive KeyEvent where
  | released (k : SpeedEditorKey)
  | pressed (k : SpeedEditorKey)
deriving DecidableEq

/-- Whether a `KeyEvent` is a press edge. -/
def KeyEvent.isPressed : KeyEvent → Bool
  | KeyEvent.released _ => false
  | KeyEvent.pressed _ => true

namespace MackieHandler

/-- `key` (source lines 148-162): from the stored held-key set `self.keys`
and the new snapshot list, compute `released = self.keys - keys_set` and
`pressed = keys_set - self.keys`, store `keys_set`, then call
`key_released` on every released key and afterwards `key_pressed` on every
pressed key.  Returns the new stored set and the edge calls in order (the
release loop runs to completion before the press loop starts; the order
inside each Python `set` iteration is unspecified, here `iterKeys`). -/
def key (stored : Finset SpeedEditorKey) (keys : List SpeedEditorKey) :
    Finset SpeedEditorKey × List KeyEvent :=
  let keys_set := keys.toFinset
  let released := stored \ keys_set
  let pressed := keys_set \ stored
  (keys_set,
    (iterKeys released).map KeyEvent.released ++ (iterKeys pressed).map KeyEvent.pressed)

/-- `send_midi_jog_cc`'s while loop (source lines 202-209): with
`abs_val_full` rotations left and the precomputed sign bits, emit
`(control, value)` control-change messages until exhausted.  Each pass
clamps the chunk to 63 and sends `abs_val | sign` on control
`MCU_JOG_CC`. -/
def jogCCLoop (sign : Nat) (abs_val_full : Nat) : List (Nat × Nat) :=
  if _h : 0 < abs_val_full then
    ((MCU_JOG_CC, (if 63 < abs_val_full then 63 else abs_val_full) ||| sign) ::
      jogCCLoop sign (abs_val_full - (if 63 < abs_val_full then 63 else abs_val_full)))
  else []
termination_by abs_val_full
decreasing_by
  split <;> omega

/-- `send_midi_jog_cc` (source lines 200-209): `abs_val_full = abs(shift)`,
`sign = int(shift < 0) << 6`, then the chunking loop.  Returns the list of
`(control, value)` pairs sent. -/
def send_midi_jog_cc (shift : Int) : List (Nat × Nat) :=
  jogCCLoop ((if shift < 0 then 1 else 0) <<< 6) shift.natAbs

/-- `send_midi_nudge_msgs` (source lines 211-220): ramp the magnitude above
`RAMP_THRESHOLD` by `RAMP_FACTOR`, pick the note by sign and by whether
`NUDGE` is in `self.modifiers`, and send that note `abs_val` times
(`for i in range(0, abs_val)`).  Returns the list of notes sent. -/
def send_midi_nudge_msgs (modifiers : Finset KeyModifiers) (shift : Int) : List Nat :=
  let abs_val := shift.natAbs
  let abs_val := if RAMP_THRESHOLD < abs_val then
    (abs_val - RAMP_THRESHOLD) * RAMP_FACTOR + RAMP_THRESHOLD else abs_val
  let msg := if KeyModifiers.NUDGE ∈ modifiers then
      (if shift < 0 then MCU_USER_A else MCU_USER_B)
    else
      (if shift < 0 then MCU_F1 else MCU_F2)
  List.replicate abs_val msg

/-- `modifier_pressed` (source lines 252-255): if the key maps to a
modifier, `self.modifiers.add(modifier)` (idempotent set insert). -/
def modifier_pressed (modifiers : Finset KeyModifiers) (k : SpeedEditorKey) :
    Finset KeyModifiers :=
  match MODIFIER_KEY_MAP k with
  | some modifier => insert modifier modifiers
  | none => modifiers

/-- `modifier_released` (source lines 257-260): if the key maps to a
modifier, `self.modifiers.remove(modifier)`.  Python `set.remove` raises
`KeyError` when the element is absent, and no caller up the chain
(`key_released` ← `key` ← the poll loop) catches it, so the exception is
modelled as `Except.error`. -/
def modifier_released (modifiers : Finset KeyModifiers) (k : SpeedEditorKey) :
    Except String (Finset KeyModifiers) :=
  match MODIFIER_KEY_MAP k with
  | some modifier =>
    if modifier ∈ modifiers then Except.ok (modifiers.erase modifier)
    else Except.error "KeyError"
  | none => Except.ok modifiers

/-- `modifiers = set()` (source line 80) is a CLASS attribute: it is
evaluated once when the class body runs, and `self.modifiers.add(...)` /
`.remove(...)` mutate that single set in place (no instance attribute named
`modifiers` is ever assigned), so every `MackieHandler` instance reads and
writes the same set.  The model therefore keeps one shared set for the
whole class. -/
structure MackieClassState where
  modifiers : Finset KeyModifiers
deriving DecidableEq

/-- The class state after the class body runs: `set()` is empty.
Constructing instances does not touch it (`__init__` never assigns
`self.modifiers`). -/
def initClassState : MackieClassState :=
  { modifiers := ∅ }

/-- `modifier_pressed` invoked on instance number `i` of the class: the
instance index is irrelevant because attribute lookup finds the single
class-level set. -/
def instance_modifier_pressed (w : MackieClassState) (_i : Nat)
    (k : SpeedEditorKey) : MackieClassState :=
  { w with modifiers := modifier_pressed w.modifiers k }

/-- The modifier set observed through instance number `i`: attribute lookup
on `self.modifiers` falls back to the class attribute, the same set for
every instance. -/
def instanceModifiers (w : MackieClassState) (_i : Nat) : Finset KeyModifiers :=
  w.modifiers

end MackieHandler

/-- Modelled from the spec: the nine camera-group LED flags
`SpeedEditorLed.CAM1 .. CAM9` come from the repository's `bmd` module,
which is not under `src/`.  The spec fixes only that they form "a fixed
group-LED bitmask" of distinct single-bit flags; the model assigns them
nine distinct bits (the exact positions are immaterial to every claim
about the mask). -/
def camLedGroup : List Nat :=
  [1 <<< 0, 1 <<< 1, 1 <<< 2, 1 <<< 3, 1 <<< 4, 1 <<< 5, 1 <<< 6, 1 <<< 7, 1 <<< 8]

/-- `led_set = CAM1 | CAM2 | ... | CAM9` (source line 115). -/
def led_set : Nat :=
  camLedGroup.foldl (fun a b => a ||| b) 0

namespace MackieHandler

/-- The instance attributes read and written by the body of
`receive_thread`: the three status booleans and the LED mask. -/
structure ReceiveState where
  play_state : Bool
  zoom_mode : Bool
  scrub_mode : Bool
  leds : Nat
deriving DecidableEq

/-- One iteration of `receive_thread`'s loop (source lines 110-123) on a
received `note_on` message with the given note and velocity: three
independent `if` tests against `MCU_PLAY`, `MCU_ZOOM`, `MCU_SCRUB`.  The
play branch recomputes the LED mask — `self.leds &= ~led_set` clears the
camera bits (`Nat.ldiff`, since Python `x & ~y` on the unbounded
nonnegative mask clears exactly the bits of `y`), re-sets them when the
new play state is active, and calls `self.se.set_leds(self.leds)` at once.
Returns the new state and the mask written to the device, if any. -/
def receive_note_on (s : ReceiveState) (note velocity : Nat) :
    ReceiveState × Option Nat :=
  let (s, written) :=
    if note = MCU_PLAY then
      let play_state := decide (0 < velocity)
      let leds := Nat.ldiff s.leds led_set
      let leds := if play_state then leds ||| led_set else leds
      ({ s with play_state := play_state, leds := leds }, some leds)
    else (s, none)
  let s := if note = MCU_ZOOM then { s with zoom_mode := decide (0 < velocity) } else s
  let s := if note = MCU_SCRUB then { s with scrub_mode := decide (0 < velocity) } else s
  (s, written)

/-- The state touched by the zoom-repeat machinery: the stored held-key set
`self.keys`, the `self.zoom_timer_on` flag, and — as an accounting field of
the model, not an attribute of the class — `pendingTimers`, the number of
`threading.Timer` objects that have been `start()`ed (source line 234) and
whose callback has not yet run.  The MIDI notes emitted by
`zoom_handle_keys` / `set_zoom_mode` are external output and carry no
bridge state, so they are not recorded here. -/
structure ZoomState where
  keys : Finset SpeedEditorKey
  zoom_timer_on : Bool
  pendingTimers : Nat
deriving DecidableEq

/-- The zoom fields right after `__init__` (source lines 83, 85): the flag
is off, no key is held, and no timer has been started. -/
def initZoomState : ZoomState :=
  { keys := ∅, zoom_timer_on := false, pendingTimers := 0 }

/-- `set_zoom_timer` (source lines 230-234): only when `zoom_timer_on` is
false, set it and start a fresh `threading.Timer` (one more pending
callback). -/
def set_zoom_timer (s : ZoomState) : ZoomState :=
  if s.zoom_timer_on then s
  else { s with zoom_timer_on := true, pendingTimers := s.pendingTimers + 1 }

/-- `zoom_handle_keys` (source lines 236-250): if any `ZOOM_KEYS` member is
currently held, emit the mode/direction notes (external output) and arm the
repeat timer via `set_zoom_timer`; otherwise nothing changes. -/
def zoom_handle_keys (s : ZoomState) : ZoomState :=
  let zoom_pressed := ZOOM_KEYS.any (fun k => decide (k ∈ s.keys))
  if zoom_pressed then set_zoom_timer s else s

/-- `zoom_repeat` (source lines 226-228), the timer callback: the fired
timer is no longer pending, `self.zoom_timer_on = False` is assigned, and
then `zoom_handle_keys` runs again. -/
def zoom_repeat (s : ZoomState) : ZoomState :=
  zoom_handle_keys
    { s with zoom_timer_on := false, pendingTimers := s.pendingTimers - 1 }

/-- The effect of one `key` call (source lines 148-162) on the zoom fields:
the stored set becomes the snapshot, and `key_pressed` (source lines
167-195) calls `zoom_handle_keys` once for every pressed key that is in
`ZOOM_KEYS` (lines 194-195).  Released keys never touch the zoom fields
(`key_released` only handles modifiers). -/
def zoomKeyUpdate (s : ZoomState) (keys : List SpeedEditorKey) : ZoomState :=
  let keys_set := keys.toFinset
  let pressed := keys_set \ s.keys
  let s := { s with keys := keys_set }
  (iterKeys pressed).foldl
    (fun st k => if k ∈ ZOOM_KEYS then zoom_handle_keys st else st) s

end MackieHandler

/-- One interleaved step of the zoom machinery: either the device-input path
delivers a new held-key snapshot, or an outstanding repeat timer fires (only
possible when at least one timer is pending). -/
inductive ZoomStep : MackieHandler.ZoomState → MackieHandler.ZoomState → Prop where
  | key (s : MackieHandler.ZoomState) (keys : List SpeedEditorKey) :
      ZoomStep s (MackieHandler.zoomKeyUpdate s keys)
  | fire (s : MackieHandler.ZoomState) (h : 0 < s.pendingTimers) :
      ZoomStep s (MackieHandler.zoom_repeat s)

/-- States reachable from the zoom machinery's initial state by any
interleaving of key-event steps and timer-fire steps. -/
def ZoomReachable (s : MackieHandler.ZoomState) : Prop :=
  Relation.ReflTransGen ZoomStep MackieHandler.initZoomState s

/-! ## Helper lemmas: the jog quantizer -/

theorem set_jog_mode_for_key_unsent (s : MackieHandler.JogState) (k : SpeedEditorKey) :
    (MackieHandler.set_jog_mode_for_key s k).jog_unsent = s.jog_unsent := by
  unfold MackieHandler.set_jog_mode_for_key
  cases MackieHandler.JOG k <;> rfl

theorem factor_pos (k : SpeedEditorKey) (f : Int)
    (h : MackieHandler.JOG_SPEED_DIV_FACTOR k = some f) : 0 < f := by
  cases k <;> simp [MackieHandler.JOG_SPEED_DIV_FACTOR] at h <;> omega

/-- One `jog` call balances the books: the incoming native units plus the
old remainder equal the emitted steps times the factor plus the new
remainder; the mode is untouched. -/
theorem jog_balance (s : MackieHandler.JogState) (d f : Int)
    (s1 : MackieHandler.JogState) (emit : Option MackieHandler.JogEmit)
    (hf : MackieHandler.JOG_SPEED_DIV_FACTOR s.jog_mode = some f)
    (hj : MackieHandler.jog s d = some (s1, emit)) :
    s1.jog_mode = s.jog_mode ∧
    s.jog_unsent + d / 360 =
      (match emit with
       | none => 0
       | some e => MackieHandler.JogEmit.steps e * f) + s1.jog_unsent := by
  simp only [MackieHandler.jog, hf] at hj
  split at hj
  · cases hj
    exact ⟨rfl, by simp⟩
  · cases hj
    refine ⟨rfl, ?_⟩
    have hsteps : MackieHandler.JogEmit.steps
        (if s.jog_mode = SpeedEditorKey.SHTL
         then MackieHandler.JogEmit.nudge ((s.jog_unsent + d / 360) / f)
         else MackieHandler.JogEmit.cc ((s.jog_unsent + d / 360) / f)) =
        (s.jog_unsent + d / 360) / f := by
      split <;> rfl
    simp only [hsteps]
    ring

/-- After one `jog` call the remainder is the Euclidean remainder of the
accumulated total by the factor: nonnegative and strictly below the
factor. -/
theorem jog_bound (s : MackieHandler.JogState) (d f : Int)
    (s1 : MackieHandler.JogState) (emit : Option MackieHandler.JogEmit)
    (hf : MackieHandler.JOG_SPEED_DIV_FACTOR s.jog_mode = some f)
    (hpos : 0 < f)
    (hj : MackieHandler.jog s d = some (s1, emit)) :
    s1.jog_mode = s.jog_mode ∧ 0 ≤ s1.jog_unsent ∧ s1.jog_unsent < f := by
  have hne : f ≠ 0 := by omega
  have h1 := Int.emod_nonneg (s.jog_unsent + d / 360) hne
  have h2 := Int.emod_lt_of_pos (s.jog_unsent + d / 360) hpos
  have hdef := Int.ediv_add_emod (s.jog_unsent + d / 360) f
  simp only [MackieHandler.jog, hf] at hj
  split at hj
  · rename_i hzero
    cases hj
    refine ⟨rfl, ?_, ?_⟩ <;>
      (dsimp only; rw [hzero] at hdef; simp only [mul_zero, zero_add] at hdef; omega)
  · cases hj
    have hrw : s.jog_unsent + d / 360 - (s.jog_unsent + d / 360) / f * f =
        (s.jog_unsent + d / 360) % f := by
      rw [Int.emod_def]; ring
    refine ⟨rfl, ?_, ?_⟩ <;> (dsimp only; rw [hrw]; omega)

/-- `runJog` on an appended event list runs the two pieces in sequence and
concatenates the emissions. -/
theorem runJog_append (es es' : List BridgeJogEvent) :
    ∀ s : MackieHandler.JogState,
      runJog s (es ++ es') =
        match runJog s es with
        | none => none
        | some (s1, ems) =>
          match runJog s1 es' with
          | none => none
          | some (s2, ems') => some (s2, ems ++ ems') := by
  induction es with
  | nil =>
    intro s
    simp only [List.nil_append, runJog]
    cases runJog s es' with
    | none => rfl
    | some p => cases p; rfl
  | cons e es ih =>
    intro s
    cases e with
    | press k =>
      rw [List.cons_append]
      simp only [runJog]
      exact ih _
    | delta d =>
      rw [List.cons_append]
      simp only [runJog]
      cases hF : MackieHandler.JOG_SPEED_DIV_FACTOR s.jog_mode with
      | none => simp
      | some f =>
        cases hj : MackieHandler.jog s d with
        | none => simp
        | some p =>
          obtain ⟨s1, emit⟩ := p
          simp only [ih s1]
          cases hr : runJog s1 es with
          | none => simp
          | some q =>
            obtain ⟨s2, ems⟩ := q
            cases hr' : runJog s2 es' with
            | none => simp [hr']
            | some r =>
              obtain ⟨s3, ems'⟩ := r
              simp [hr', List.append_assoc]

/-- Conservation along any run: the starting remainder plus all incoming
native units equal the emitted steps (each times its factor) plus the final
remainder. -/
theorem runJog_conservation (es : List BridgeJogEvent) :
    ∀ (s s' : MackieHandler.JogState) (ems : List (Int × Int)),
      runJog s es = some (s', ems) →
      s.jog_unsent + (es.filterMap eventNative).sum =
        (ems.map (fun p => p.1 * p.2)).sum + s'.jog_unsent := by
  induction es with
  | nil =>
    intro s s' ems h
    simp only [runJog, Option.some.injEq, Prod.mk.injEq] at h
    obtain ⟨rfl, rfl⟩ := h
    simp
  | cons e es ih =>
    intro s s' ems h
    cases e with
    | press k =>
      simp only [runJog] at h
      have := ih _ _ _ h
      rw [set_jog_mode_for_key_unsent] at this
      simpa [eventNative] using this
    | delta d =>
      simp only [runJog] at h
      split at h
      · rename_i f s1 emit hf hj
        split at h
        · cases h
        · rename_i q s2 ems1 hr
          simp only [Option.some.injEq, Prod.mk.injEq] at h
          obtain ⟨rfl, rfl⟩ := h
          have hb := (jog_balance s d f s1 emit hf hj).2
          have htail := ih _ _ _ hr
          cases emit with
          | none =>
            simp only [eventNative, List.filterMap_cons, List.nil_append,
              List.sum_cons] at *
            linarith
          | some e =>
            simp only [eventNative, List.filterMap_cons, List.sum_cons,
              List.map_append, List.sum_append, List.map_cons, List.map_nil,
              List.sum_nil, List.cons_append, List.nil_append] at *
            linarith
      · cases h

/-! ## Claims C1-C3: the jog quantizer -/

/-- C1, counterexample: the jog translation's divisions are not
truncations toward zero.  At raw delta -2520 in the initial state (mode
JOG, remainder 0) the source floor-divides: the accumulated total -7 gives
steps `-7 // 15 = -1`, remainder 8, and one emitted step, while the
claim's truncating-toward-zero reading gives steps 0, remainder -7 and no
emission. -/
theorem C1_trunc_division_refuted :
    MackieHandler.jog MackieHandler.initJogState (-2520) =
      some ({ jog_mode := SpeedEditorKey.JOG, jog_unsent := 8 },
        some (MackieHandler.JogEmit.cc (-1))) ∧
    jogClaimTrunc MackieHandler.initJogState (-2520) =
      some ({ jog_mode := SpeedEditorKey.JOG, jog_unsent := -7 }, none) ∧
    MackieHandler.jog MackieHandler.initJogState (-2520) ≠
      jogClaimTrunc MackieHandler.initJogState (-2520) :=
  ⟨by decide, by decide, by decide⟩

/-- C1, amended: for every raw jog delta and every jog state, `jog`
computes exactly the claim's recipe with both integer divisions taken as
floor divisions (Python `//`, rounding toward negative infinity): native
units, accumulated total, steps, remainder update and emission all agree
with `jogClaimFloor`. -/
theorem C1_jog_floor_recipe (s : MackieHandler.JogState) (d : Int) :
    MackieHandler.jog s d = jogClaimFloor s d := rfl

/-- C2: the jog quantizer never loses rotation information.  For every
event sequence from the initial state, with mode switches interleaved
anywhere (a mode switch does not reset the remainder), the sum of the
per-call native units `d / 360` equals the sum of the emitted step counts
each times the speed-division factor active at that emission, plus the
final remainder. -/
theorem C2_jog_conservation (es : List BridgeJogEvent)
    (s' : MackieHandler.JogState) (ems : List (Int × Int))
    (h : runJog MackieHandler.initJogState es = some (s', ems)) :
    (es.filterMap eventNative).sum =
      (ems.map (fun p => p.1 * p.2)).sum + s'.jog_unsent := by
  have hc := runJog_conservation es MackieHandler.initJogState s' ems h
  simpa [MackieHandler.initJogState] using hc

theorem C2_jog_conservation_witness :
    runJog MackieHandler.initJogState
        [BridgeJogEvent.delta 5400, BridgeJogEvent.press SpeedEditorKey.SHTL,
          BridgeJogEvent.delta (-360)] =
      some ({ jog_mode := SpeedEditorKey.SHTL, jog_unsent := 19 },
        [(1, 15), (-1, 20)]) ∧
    ([BridgeJogEvent.delta 5400, BridgeJogEvent.press SpeedEditorKey.SHTL,
        BridgeJogEvent.delta (-360)].filterMap eventNative).sum =
      (([(1, 15), (-1, 20)] : List (Int × Int)).map (fun p => p.1 * p.2)).sum +
        ({ jog_mode := SpeedEditorKey.SHTL, jog_unsent := 19 } :
          MackieHandler.JogState).jog_unsent :=
  ⟨by decide, C2_jog_conservation _ _ _ (by decide)⟩

/-- C3: immediately after each jog translation call in any run from the
initial state, the magnitude of the remainder is strictly below the
speed-division factor of the mode active during that call (SHTL 20, JOG
15, SCRL 1 — the factors recorded in `JOG_SPEED_DIV_FACTOR`). -/
theorem C3_remainder_bound (es : List BridgeJogEvent) (d : Int)
    (s' : MackieHandler.JogState) (ems : List (Int × Int))
    (h : runJog MackieHandler.initJogState (es ++ [BridgeJogEvent.delta d]) =
      some (s', ems)) :
    ∃ f, MackieHandler.JOG_SPEED_DIV_FACTOR s'.jog_mode = some f ∧
      |s'.jog_unsent| < f := by
  rw [runJog_append] at h
  split at h
  · cases h
  · rename_i p s1 ems1 hr
    split at h
    · cases h
    · rename_i q s2 ems2 hr2
      simp only [Option.some.injEq, Prod.mk.injEq] at h
      obtain ⟨rfl, rfl⟩ := h
      simp only [runJog] at hr2
      split at hr2
      · rename_i f s3 emit hf hj
        simp only [Option.some.injEq, Prod.mk.injEq] at hr2
        obtain ⟨rfl, rfl⟩ := hr2
        have hpos := factor_pos _ _ hf
        have hb := jog_bound s1 d f _ emit hf hpos hj
        refine ⟨f, ?_, ?_⟩
        · rw [hb.1]; exact hf
        · rw [abs_of_nonneg hb.2.1]; exact hb.2.2
      · cases hr2

theorem C3_remainder_bound_witness :
    runJog MackieHandler.initJogState ([] ++ [BridgeJogEvent.delta 2520]) =
      some ({ jog_mode := SpeedEditorKey.JOG, jog_unsent := 7 }, []) ∧
    ∃ f, MackieHandler.JOG_SPEED_DIV_FACTOR
        ({ jog_mode := SpeedEditorKey.JOG, jog_unsent := 7 } :
          MackieHandler.JogState).jog_mode = some f ∧
      |({ jog_mode := SpeedEditorKey.JOG, jog_unsent := 7 } :
          MackieHandler.JogState).jog_unsent| < f :=
  ⟨by decide,
    C3_remainder_bound [] 2520
      { jog_mode := SpeedEditorKey.JOG, jog_unsent := 7 } [] (by decide)⟩

/-! ## Claims C4-C5: the modifier tracker -/

/-- C4, counterexample: the release handler is not tolerant of an absent
modifier.  Releasing ROLL (mapped to NUDGE) while the modifier set is
empty runs `self.modifiers.remove(modifier)` on a set without the element,
which raises `KeyError`; no caller on the key-handling path catches it. -/
theorem C4_release_on_absent_raises :
    MackieHandler.modifier_released ∅ SpeedEditorKey.ROLL =
      Except.error "KeyError" := rfl

/-- C4, amended: for every key-release edge on a key mapped to a modifier,
if the modifier is in the active set it is removed (exactly it, nothing
else); if it is absent, `set.remove` raises a `KeyError` that propagates —
the handler neither no-ops nor merely logs. -/
theorem C4_release_behavior (mods : Finset KeyModifiers) (k : SpeedEditorKey)
    (m : KeyModifiers) (hm : MackieHandler.MODIFIER_KEY_MAP k = some m) :
    (m ∈ mods →
      ∃ mods', MackieHandler.modifier_released mods k = Except.ok mods' ∧
        m ∉ mods' ∧ ∀ x, x ≠ m → (x ∈ mods' ↔ x ∈ mods)) ∧
    (m ∉ mods →
      MackieHandler.modifier_released mods k = Except.error "KeyError") := by
  constructor
  · intro hmem
    refine ⟨mods.erase m, ?_, ?_, ?_⟩
    · simp [MackieHandler.modifier_released, hm, hmem]
    · simp
    · intro x hx
      cases x
      cases m
      exact absurd rfl hx
  · intro habs
    simp [MackieHandler.modifier_released, hm, habs]

theorem C4_release_behavior_witness :
    MackieHandler.MODIFIER_KEY_MAP SpeedEditorKey.ROLL =
      some KeyModifiers.NUDGE ∧
    ((KeyModifiers.NUDGE ∈ ({KeyModifiers.NUDGE} : Finset KeyModifiers) →
      ∃ mods', MackieHandler.modifier_released {KeyModifiers.NUDGE}
          SpeedEditorKey.ROLL = Except.ok mods' ∧
        KeyModifiers.NUDGE ∉ mods' ∧
        ∀ x, x ≠ KeyModifiers.NUDGE →
          (x ∈ mods' ↔ x ∈ ({KeyModifiers.NUDGE} : Finset KeyModifiers))) ∧
    (KeyModifiers.NUDGE ∉ ({KeyModifiers.NUDGE} : Finset KeyModifiers) →
      MackieHandler.modifier_released {KeyModifiers.NUDGE}
        SpeedEditorKey.ROLL = Except.error "KeyError")) :=
  ⟨by decide,
    C4_release_behavior {KeyModifiers.NUDGE} SpeedEditorKey.ROLL
      KeyModifiers.NUDGE (by decide)⟩

/-- C5: the source's `modifiers = set()` (line 80) is a class attribute
shared by every instance, not a per-instance field.  Evaluating the model
at the failing input: from the fresh class state a ROLL press handled by
instance 0 makes instance 1 observe NUDGE active, although instance 1
handled nothing — adding through one instance does not leave the other
instance's set unchanged, refuting the per-instance independence the
claim requires. -/
theorem C5_modifier_set_shared_across_instances :
    MackieHandler.instanceModifiers MackieHandler.initClassState 1 = ∅ ∧
    MackieHandler.instanceModifiers
        (MackieHandler.instance_modifier_pressed MackieHandler.initClassState 0
          SpeedEditorKey.ROLL) 1 = {KeyModifiers.NUDGE} := by
  exact ⟨by decide, by decide⟩

/-! ## Helper lemmas: the jog control-change chunking loop -/

/-- The sign bits are 0 or 64 (bit 6); ORing them onto a 6-bit chunk keeps
the chunk in bits 0-5 and writes the sign in bit 6. -/
theorem chunk_lor_facts (a : Nat) (h : a ≤ 63) :
    a ||| 0 = a ∧ (a ||| 0) % 64 = a ∧ (a ||| 0).testBit 6 = false ∧
    a ||| 64 = a + 64 ∧ (a ||| 64) % 64 = a ∧ (a ||| 64).testBit 6 = true := by
  interval_cases a <;> exact (by decide)

theorem jogCCLoop_length (sign : Nat) (r : Nat) :
    (MackieHandler.jogCCLoop sign r).length = (r + 62) / 63 := by
  induction r using Nat.strong_induction_on with
  | _ r ih =>
    rw [MackieHandler.jogCCLoop.eq_def]
    by_cases h : 0 < r
    · simp only [dif_pos h]
      by_cases h63 : 63 < r
      · simp only [if_pos h63, List.length_cons, ih (r - 63) (by omega)]
        omega
      · simp only [if_neg h63, List.length_cons, ih (r - r) (by omega)]
        omega
    · simp only [dif_neg h, List.length_nil]
      omega

theorem jogCCLoop_sum (sign : Nat) (hs : sign = 0 ∨ sign = 64) (r : Nat) :
    ((MackieHandler.jogCCLoop sign r).map (fun m => m.2 % 64)).sum = r := by
  induction r using Nat.strong_induction_on with
  | _ r ih =>
    rw [MackieHandler.jogCCLoop.eq_def]
    by_cases h : 0 < r
    · simp only [dif_pos h, List.map_cons, List.sum_cons]
      by_cases h63 : 63 < r
      · have hc := chunk_lor_facts 63 (by omega)
        rcases hs with rfl | rfl
        · simp only [if_pos h63, hc.2.1, ih (r - 63) (by omega)]
          omega
        · simp only [if_pos h63, hc.2.2.2.2.1, ih (r - 63) (by omega)]
          omega
      · have hc := chunk_lor_facts r (by omega)
        rcases hs with rfl | rfl
        · simp only [if_neg h63, hc.2.1, ih (r - r) (by omega)]
          omega
        · simp only [if_neg h63, hc.2.2.2.2.1, ih (r - r) (by omega)]
          omega
    · simp only [dif_neg h, List.map_nil, List.sum_nil]
      omega

theorem jogCCLoop_mem (sign : Nat) (hs : sign = 0 ∨ sign = 64) (r : Nat) :
    ∀ m ∈ MackieHandler.jogCCLoop sign r,
      m.1 = MackieHandler.MCU_JOG_CC ∧ m.2 % 64 ≤ 63 ∧
      m.2.testBit 6 = decide (sign = 64) := by
  induction r using Nat.strong_induction_on with
  | _ r ih =>
    rw [MackieHandler.jogCCLoop.eq_def]
    by_cases h : 0 < r
    · simp only [dif_pos h]
      intro m hm
      rcases List.mem_cons.mp hm with rfl | htail
      · refine ⟨rfl, ?_, ?_⟩ <;>
        · by_cases h63 : 63 < r
          · have hc := chunk_lor_facts 63 (by omega)
            rcases hs with rfl | rfl <;>
              simp only [if_pos h63, hc.2.1, hc.2.2.1, hc.2.2.2.2.1,
                hc.2.2.2.2.2] <;> first | omega | decide
          · have hc := chunk_lor_facts r (by omega)
            rcases hs with rfl | rfl <;>
              simp only [if_neg h63, hc.2.1, hc.2.2.1, hc.2.2.2.2.1,
                hc.2.2.2.2.2] <;> first | omega | decide
      · exact ih _ (by split <;> omega) m htail
    · simp only [dif_neg h]
      intro m hm
      cases hm

/-! ## Claim C6: the jog control-change encoder -/

/-- C6: for every nonzero signed step count s, `send_midi_jog_cc` emits
ceiling(|s|/63) = (|s|+62)/63 control-change messages, all on control
number 0x3c (`MCU_JOG_CC`), each carrying in bits 0-5 a magnitude of at
most 63 with bit 6 set exactly when s is negative, and the magnitudes sum
to |s|; in particular an input of 130 produces exactly three messages with
magnitudes 63, 63, 4, all with sign bit 0. -/
theorem C6_jog_cc_encoder :
    (∀ s : Int, s ≠ 0 →
      (MackieHandler.send_midi_jog_cc s).length = (s.natAbs + 62) / 63 ∧
      ((MackieHandler.send_midi_jog_cc s).map (fun m => m.2 % 64)).sum = s.natAbs ∧
      ∀ m ∈ MackieHandler.send_midi_jog_cc s,
        m.1 = MackieHandler.MCU_JOG_CC ∧ m.2 % 64 ≤ 63 ∧
        m.2.testBit 6 = decide (s < 0)) ∧
    MackieHandler.send_midi_jog_cc 130 =
      [(MackieHandler.MCU_JOG_CC, 63), (MackieHandler.MCU_JOG_CC, 63),
        (MackieHandler.MCU_JOG_CC, 4)] := by
  constructor
  · intro s hs0
    unfold MackieHandler.send_midi_jog_cc
    by_cases hneg : s < 0
    · simp only [if_pos hneg]
      have h64 : (1 : Nat) <<< 6 = 64 := by decide
      rw [h64]
      refine ⟨jogCCLoop_length 64 s.natAbs,
        jogCCLoop_sum 64 (Or.inr rfl) s.natAbs, ?_⟩
      intro m hm
      have hmem := jogCCLoop_mem 64 (Or.inr rfl) s.natAbs m hm
      simpa [hneg] using hmem
    · simp only [if_neg hneg]
      have h0 : (0 : Nat) <<< 6 = 0 := by decide
      rw [h0]
      refine ⟨jogCCLoop_length 0 s.natAbs,
        jogCCLoop_sum 0 (Or.inl rfl) s.natAbs, ?_⟩
      intro m hm
      have hmem := jogCCLoop_mem 0 (Or.inl rfl) s.natAbs m hm
      simpa [hneg] using hmem
  · have s4 : MackieHandler.jogCCLoop 0 0 = [] := by
      rw [MackieHandler.jogCCLoop.eq_def]; norm_num
    have s3 : MackieHandler.jogCCLoop 0 4 =
        (MackieHandler.MCU_JOG_CC, 4 ||| 0) :: MackieHandler.jogCCLoop 0 0 := by
      rw [MackieHandler.jogCCLoop.eq_def]; norm_num
    have s2 : MackieHandler.jogCCLoop 0 67 =
        (MackieHandler.MCU_JOG_CC, 63 ||| 0) :: MackieHandler.jogCCLoop 0 4 := by
      rw [MackieHandler.jogCCLoop.eq_def]; norm_num
    have s1 : MackieHandler.jogCCLoop 0 130 =
        (MackieHandler.MCU_JOG_CC, 63 ||| 0) :: MackieHandler.jogCCLoop 0 67 := by
      rw [MackieHandler.jogCCLoop.eq_def]; norm_num
    have e0 : MackieHandler.send_midi_jog_cc 130 = MackieHandler.jogCCLoop 0 130 := rfl
    rw [e0, s1, s2, s3, s4]
    decide

theorem C6_jog_cc_encoder_witness :
    (130 : Int) ≠ 0 ∧
    ((MackieHandler.send_midi_jog_cc 130).length = ((130 : Int).natAbs + 62) / 63 ∧
      ((MackieHandler.send_midi_jog_cc 130).map (fun m => m.2 % 64)).sum =
        (130 : Int).natAbs ∧
      ∀ m ∈ MackieHandler.send_midi_jog_cc 130,
        m.1 = MackieHandler.MCU_JOG_CC ∧ m.2 % 64 ≤ 63 ∧
        m.2.testBit 6 = decide ((130 : Int) < 0)) :=
  ⟨by decide, C6_jog_cc_encoder.1 130 (by decide)⟩

/-! ## Claim C7: the nudge-burst encoder -/

/-- C7: for every nonzero signed step count s, `send_midi_nudge_msgs`
emits exactly ramped(|s|) button messages, where ramped(r) = 5 + (r-5)*5
when r > 5 and ramped(r) = r otherwise (threshold 5, factor 5), and every
message carries the code selected by the sign of s and the NUDGE modifier:
MCU_USER_A/MCU_USER_B (negative/positive) when NUDGE is active,
MCU_F1/MCU_F2 otherwise; in particular magnitude 8 yields 20 messages and
magnitude 3 yields 3. -/
theorem C7_nudge_burst :
    (∀ (mods : Finset KeyModifiers) (s : Int), s ≠ 0 →
      (MackieHandler.send_midi_nudge_msgs mods s).length =
        (if 5 < s.natAbs then 5 + (s.natAbs - 5) * 5 else s.natAbs) ∧
      ∀ m ∈ MackieHandler.send_midi_nudge_msgs mods s,
        m = (if KeyModifiers.NUDGE ∈ mods then
              (if s < 0 then MackieHandler.MCU_USER_A else MackieHandler.MCU_USER_B)
            else
              (if s < 0 then MackieHandler.MCU_F1 else MackieHandler.MCU_F2))) ∧
    (∀ mods : Finset KeyModifiers,
      (MackieHandler.send_midi_nudge_msgs mods 8).length = 20 ∧
      (MackieHandler.send_midi_nudge_msgs mods (-8)).length = 20 ∧
      (MackieHandler.send_midi_nudge_msgs mods 3).length = 3) := by
  have hlen : ∀ (mods : Finset KeyModifiers) (s : Int),
      (MackieHandler.send_midi_nudge_msgs mods s).length =
        (if 5 < s.natAbs then 5 + (s.natAbs - 5) * 5 else s.natAbs) := by
    intro mods s
    unfold MackieHandler.send_midi_nudge_msgs MackieHandler.RAMP_THRESHOLD
      MackieHandler.RAMP_FACTOR
    rw [List.length_replicate]
    split <;> omega
  constructor
  · intro mods s _
    refine ⟨hlen mods s, ?_⟩
    intro m hm
    simp only [MackieHandler.send_midi_nudge_msgs] at hm
    exact List.eq_of_mem_replicate hm
  · intro mods
    refine ⟨?_, ?_, ?_⟩ <;> (rw [hlen]; decide)

theorem C7_nudge_burst_witness :
    (8 : Int) ≠ 0 ∧
    ((MackieHandler.send_midi_nudge_msgs ∅ 8).length =
      (if 5 < (8 : Int).natAbs then 5 + ((8 : Int).natAbs - 5) * 5
       else (8 : Int).natAbs) ∧
      ∀ m ∈ MackieHandler.send_midi_nudge_msgs ∅ 8,
        m = (if KeyModifiers.NUDGE ∈ (∅ : Finset KeyModifiers) then
              (if (8 : Int) < 0 then MackieHandler.MCU_USER_A
               else MackieHandler.MCU_USER_B)
            else
              (if (8 : Int) < 0 then MackieHandler.MCU_F1
               else MackieHandler.MCU_F2))) :=
  ⟨by decide, C7_nudge_burst.1 ∅ 8 (by decide)⟩

/-! ## Claim C8: the edge tracker -/

theorem mem_SpeedEditorKey_all (k : SpeedEditorKey) : k ∈ SpeedEditorKey.all := by
  cases k <;> decide

theorem mem_iterKeys (s : Finset SpeedEditorKey) (k : SpeedEditorKey) :
    k ∈ iterKeys s ↔ k ∈ s := by
  simp [iterKeys, List.mem_filter, mem_SpeedEditorKey_all k]

/-- A release event appears in a key update's event list exactly for the
keys in `previous − new`. -/
theorem key_released_mem (P : Finset SpeedEditorKey) (N : List SpeedEditorKey)
    (k : SpeedEditorKey) :
    KeyEvent.released k ∈ (MackieHandler.key P N).2 ↔ k ∈ P \ N.toFinset := by
  simp [MackieHandler.key, List.mem_append, List.mem_map, mem_iterKeys]

/-- A press event appears in a key update's event list exactly for the
keys in `new − previous`. -/
theorem key_pressed_mem (P : Finset SpeedEditorKey) (N : List SpeedEditorKey)
    (k : SpeedEditorKey) :
    KeyEvent.pressed k ∈ (MackieHandler.key P N).2 ↔ k ∈ N.toFinset \ P := by
  simp [MackieHandler.key, List.mem_append, List.mem_map, mem_iterKeys]

/-- C8: one key update stores the new snapshot, reports release events for
exactly `previous − new` and press events for exactly `new − previous`,
processes all releases before any presses, and produces no event for a
key present in both snapshots or absent from both. -/
theorem C8_edge_tracker (P : Finset SpeedEditorKey) (N : List SpeedEditorKey) :
    (MackieHandler.key P N).1 = N.toFinset ∧
    (∀ k, KeyEvent.released k ∈ (MackieHandler.key P N).2 ↔ k ∈ P \ N.toFinset) ∧
    (∀ k, KeyEvent.pressed k ∈ (MackieHandler.key P N).2 ↔ k ∈ N.toFinset \ P) ∧
    ((MackieHandler.key P N).2.filter (fun e => !e.isPressed) ++
      (MackieHandler.key P N).2.filter (fun e => e.isPressed) =
        (MackieHandler.key P N).2) ∧
    (∀ k, (k ∈ P ↔ k ∈ N.toFinset) →
      ∀ e ∈ (MackieHandler.key P N).2,
        e ≠ KeyEvent.released k ∧ e ≠ KeyEvent.pressed k) := by
  refine ⟨rfl, key_released_mem P N, key_pressed_mem P N, ?_, ?_⟩
  · simp [MackieHandler.key, List.filter_append, List.filter_map,
      Function.comp_def, KeyEvent.isPressed]
  · intro k hk e he
    constructor
    · intro heq
      rw [heq] at he
      rw [key_released_mem, Finset.mem_sdiff] at he
      exact he.2 (hk.mp he.1)
    · intro heq
      rw [heq] at he
      rw [key_pressed_mem, Finset.mem_sdiff] at he
      exact he.2 (hk.mpr he.1)

theorem C8_edge_tracker_witness :
    (MackieHandler.key {SpeedEditorKey.SHTL, SpeedEditorKey.IN}
        [SpeedEditorKey.IN, SpeedEditorKey.OUT]).1 =
      [SpeedEditorKey.IN, SpeedEditorKey.OUT].toFinset ∧
    (∀ k, KeyEvent.released k ∈ (MackieHandler.key
        {SpeedEditorKey.SHTL, SpeedEditorKey.IN}
        [SpeedEditorKey.IN, SpeedEditorKey.OUT]).2 ↔
      k ∈ ({SpeedEditorKey.SHTL, SpeedEditorKey.IN} : Finset SpeedEditorKey) \
        [SpeedEditorKey.IN, SpeedEditorKey.OUT].toFinset) ∧
    (∀ k, KeyEvent.pressed k ∈ (MackieHandler.key
        {SpeedEditorKey.SHTL, SpeedEditorKey.IN}
        [SpeedEditorKey.IN, SpeedEditorKey.OUT]).2 ↔
      k ∈ [SpeedEditorKey.IN, SpeedEditorKey.OUT].toFinset \
        ({SpeedEditorKey.SHTL, SpeedEditorKey.IN} : Finset SpeedEditorKey)) ∧
    ((MackieHandler.key {SpeedEditorKey.SHTL, SpeedEditorKey.IN}
        [SpeedEditorKey.IN, SpeedEditorKey.OUT]).2.filter (fun e => !e.isPressed) ++
      (MackieHandler.key {SpeedEditorKey.SHTL, SpeedEditorKey.IN}
        [SpeedEditorKey.IN, SpeedEditorKey.OUT]).2.filter (fun e => e.isPressed) =
        (MackieHandler.key {SpeedEditorKey.SHTL, SpeedEditorKey.IN}
          [SpeedEditorKey.IN, SpeedEditorKey.OUT]).2) ∧
    (∀ k, (k ∈ ({SpeedEditorKey.SHTL, SpeedEditorKey.IN} : Finset SpeedEditorKey) ↔
        k ∈ [SpeedEditorKey.IN, SpeedEditorKey.OUT].toFinset) →
      ∀ e ∈ (MackieHandler.key {SpeedEditorKey.SHTL, SpeedEditorKey.IN}
          [SpeedEditorKey.IN, SpeedEditorKey.OUT]).2,
        e ≠ KeyEvent.released k ∧ e ≠ KeyEvent.pressed k) :=
  C8_edge_tracker {SpeedEditorKey.SHTL, SpeedEditorKey.IN}
    [SpeedEditorKey.IN, SpeedEditorKey.OUT]

/-! ## Claim C9: the play-state LED mirror -/

/-- Evaluating one receive-loop iteration on a transport-play message with
positive velocity. -/
theorem receive_play_eval_pos (s : MackieHandler.ReceiveState) (v : Nat)
    (hv : 0 < v) :
    MackieHandler.receive_note_on s MackieHandler.MCU_PLAY v =
      ({ s with
          play_state := true,
          leds := Nat.ldiff s.leds led_set ||| led_set },
        some (Nat.ldiff s.leds led_set ||| led_set)) := by
  unfold MackieHandler.receive_note_on
  simp [MackieHandler.MCU_PLAY, MackieHandler.MCU_ZOOM, MackieHandler.MCU_SCRUB, hv]

/-- Evaluating one receive-loop iteration on a transport-play message with
velocity zero. -/
theorem receive_play_eval_zero (s : MackieHandler.ReceiveState) :
    MackieHandler.receive_note_on s MackieHandler.MCU_PLAY 0 =
      ({ s with play_state := false, leds := Nat.ldiff s.leds led_set },
        some (Nat.ldiff s.leds led_set)) := by
  unfold MackieHandler.receive_note_on
  simp [MackieHandler.MCU_PLAY, MackieHandler.MCU_ZOOM, MackieHandler.MCU_SCRUB]

theorem ldiff_lor_land_self (x L : Nat) : (Nat.ldiff x L ||| L) &&& L = L := by
  apply Nat.eq_of_testBit_eq
  intro i
  simp only [Nat.testBit_land, Nat.testBit_lor, Nat.testBit_ldiff]
  cases L.testBit i <;> cases x.testBit i <;> rfl

theorem ldiff_land_self (x L : Nat) : Nat.ldiff x L &&& L = 0 := by
  apply Nat.eq_of_testBit_eq
  intro i
  simp only [Nat.testBit_land, Nat.testBit_ldiff, Nat.zero_testBit]
  cases L.testBit i <;> cases x.testBit i <;> rfl

theorem ldiff_lor_ldiff (x L : Nat) :
    Nat.ldiff (Nat.ldiff x L ||| L) L = Nat.ldiff x L := by
  apply Nat.eq_of_testBit_eq
  intro i
  simp only [Nat.testBit_ldiff, Nat.testBit_lor]
  cases L.testBit i <;> cases x.testBit i <;> rfl

theorem ldiff_ldiff_self (x L : Nat) :
    Nat.ldiff (Nat.ldiff x L) L = Nat.ldiff x L := by
  apply Nat.eq_of_testBit_eq
  intro i
  simp only [Nat.testBit_ldiff]
  cases L.testBit i <;> cases x.testBit i <;> rfl

/-- C9: for every prior LED mask, a transport-play message with velocity
> 0 sets all camera-group bits of the mask, one with velocity 0 clears
exactly the camera-group bits, in both cases every bit outside the camera
group keeps its value, and the full new mask is written to the device as
part of handling the message. -/
theorem C9_play_led_mirror (s : MackieHandler.ReceiveState) (v : Nat) :
    (0 < v →
      (MackieHandler.receive_note_on s MackieHandler.MCU_PLAY v).1.leds &&&
        led_set = led_set) ∧
    (v = 0 →
      (MackieHandler.receive_note_on s MackieHandler.MCU_PLAY v).1.leds &&&
        led_set = 0) ∧
    Nat.ldiff (MackieHandler.receive_note_on s MackieHandler.MCU_PLAY v).1.leds
        led_set = Nat.ldiff s.leds led_set ∧
    (MackieHandler.receive_note_on s MackieHandler.MCU_PLAY v).2 =
      some (MackieHandler.receive_note_on s MackieHandler.MCU_PLAY v).1.leds := by
  by_cases hv : 0 < v
  · rw [receive_play_eval_pos s v hv]
    exact ⟨fun _ => ldiff_lor_land_self s.leds led_set,
      fun h0 => absurd h0 (by omega),
      ldiff_lor_ldiff s.leds led_set, rfl⟩
  · have hz : v = 0 := by omega
    subst hz
    rw [receive_play_eval_zero s]
    exact ⟨fun h0 => absurd h0 (by omega),
      fun _ => ldiff_land_self s.leds led_set,
      ldiff_ldiff_self s.leds led_set, rfl⟩

/-- A sample receive state used to instantiate the play-LED mirror claim:
LED bit 12 is outside the camera group, bits 0 and 2 inside it. -/
def sampleReceiveState : MackieHandler.ReceiveState :=
  { play_state := false, zoom_mode := false, scrub_mode := false, leds := 4357 }

theorem C9_play_led_mirror_witness :
    (0 < 3 →
      (MackieHandler.receive_note_on sampleReceiveState
          MackieHandler.MCU_PLAY 3).1.leds &&& led_set = led_set) ∧
    ((3 : Nat) = 0 →
      (MackieHandler.receive_note_on sampleReceiveState
          MackieHandler.MCU_PLAY 3).1.leds &&& led_set = 0) ∧
    Nat.ldiff (MackieHandler.receive_note_on sampleReceiveState
        MackieHandler.MCU_PLAY 3).1.leds led_set =
      Nat.ldiff sampleReceiveState.leds led_set ∧
    (MackieHandler.receive_note_on sampleReceiveState
        MackieHandler.MCU_PLAY 3).2 =
      some (MackieHandler.receive_note_on sampleReceiveState
          MackieHandler.MCU_PLAY 3).1.leds :=
  C9_play_led_mirror sampleReceiveState 3

/-! ## Claim C10: the zoom-repeat timer -/

/-- The timer-accounting invariant: the number of pending timer callbacks
is 1 when the flag is set and 0 when it is not. -/
def ZoomInv (s : MackieHandler.ZoomState) : Prop :=
  s.pendingTimers = (if s.zoom_timer_on then 1 else 0)

theorem set_zoom_timer_inv (s : MackieHandler.ZoomState) (h : ZoomInv s) :
    ZoomInv (MackieHandler.set_zoom_timer s) := by
  unfold ZoomInv MackieHandler.set_zoom_timer at *
  cases hon : s.zoom_timer_on <;> simp [hon] at h ⊢ <;> omega

theorem zoom_handle_keys_inv (s : MackieHandler.ZoomState) (h : ZoomInv s) :
    ZoomInv (MackieHandler.zoom_handle_keys s) := by
  simp only [MackieHandler.zoom_handle_keys]
  split
  · exact set_zoom_timer_inv s h
  · exact h

theorem foldl_zoom_handle_inv (l : List SpeedEditorKey) :
    ∀ s : MackieHandler.ZoomState, ZoomInv s →
      ZoomInv (l.foldl
        (fun st k => if k ∈ MackieHandler.ZOOM_KEYS
          then MackieHandler.zoom_handle_keys st else st) s) := by
  induction l with
  | nil => intro s h; exact h
  | cons k l ih =>
    intro s h
    simp only [List.foldl_cons]
    apply ih
    split
    · exact zoom_handle_keys_inv _ h
    · exact h

theorem zoomKeyUpdate_inv (s : MackieHandler.ZoomState)
    (keys : List SpeedEditorKey) (h : ZoomInv s) :
    ZoomInv (MackieHandler.zoomKeyUpdate s keys) := by
  unfold MackieHandler.zoomKeyUpdate
  exact foldl_zoom_handle_inv _ _ h

theorem zoom_repeat_inv (s : MackieHandler.ZoomState) (h : ZoomInv s) :
    ZoomInv (MackieHandler.zoom_repeat s) := by
  unfold MackieHandler.zoom_repeat
  apply zoom_handle_keys_inv
  unfold ZoomInv at *
  dsimp only
  cases hon : s.zoom_timer_on <;> simp [hon] at h ⊢ <;> omega

theorem zoomReachable_inv (s : MackieHandler.ZoomState) (h : ZoomReachable s) :
    ZoomInv s := by
  unfold ZoomReachable at h
  induction h with
  | refl => rfl
  | tail hsteps hstep ih =>
    cases hstep with
    | key keys => exact zoomKeyUpdate_inv _ _ ih
    | fire hp => exact zoom_repeat_inv _ ih

/-- C10: in every state reachable by any interleaving of key-event steps
and timer-fire steps, at most one zoom-repeat timer is outstanding;
arming happens only when the flag is clear and sets it while starting one
timer; a fire clears the flag (and consumes its timer) before re-invoking
the zoom key handler; and an invocation that finds no zoom-group key held
changes nothing, in particular it does not re-arm. -/
theorem C10_zoom_timer_single :
    (∀ s, ZoomReachable s → s.pendingTimers ≤ 1) ∧
    (∀ t : MackieHandler.ZoomState, t.zoom_timer_on = true →
      MackieHandler.set_zoom_timer t = t) ∧
    (∀ t : MackieHandler.ZoomState, t.zoom_timer_on = false →
      (MackieHandler.set_zoom_timer t).zoom_timer_on = true ∧
      (MackieHandler.set_zoom_timer t).pendingTimers = t.pendingTimers + 1) ∧
    (∀ t : MackieHandler.ZoomState,
      MackieHandler.zoom_repeat t =
        MackieHandler.zoom_handle_keys
          { t with
              zoom_timer_on := false,
              pendingTimers := t.pendingTimers - 1 }) ∧
    (∀ t : MackieHandler.ZoomState,
      (∀ k ∈ MackieHandler.ZOOM_KEYS, k ∉ t.keys) →
      MackieHandler.zoom_handle_keys t = t) := by
  refine ⟨?_, ?_, ?_, fun t => rfl, ?_⟩
  · intro s hs
    have h := zoomReachable_inv s hs
    unfold ZoomInv at h
    split at h <;> omega
  · intro t ht
    unfold MackieHandler.set_zoom_timer
    simp [ht]
  · intro t ht
    unfold MackieHandler.set_zoom_timer
    simp [ht]
  · intro t ht
    unfold MackieHandler.zoom_handle_keys
    have hany : (MackieHandler.ZOOM_KEYS.any fun k => decide (k ∈ t.keys)) = false := by
      rw [List.any_eq_false]
      intro k hk
      simpa using ht k hk
    simp [hany]

theorem C10_zoom_timer_single_witness :
    ZoomReachable MackieHandler.initZoomState ∧
    MackieHandler.initZoomState.pendingTimers ≤ 1 ∧
    (MackieHandler.initZoomState.zoom_timer_on = false ∧
      (MackieHandler.set_zoom_timer MackieHandler.initZoomState).zoom_timer_on =
        true ∧
      (MackieHandler.set_zoom_timer MackieHandler.initZoomState).pendingTimers =
        MackieHandler.initZoomState.pendingTimers + 1) ∧
    ((∀ k ∈ MackieHandler.ZOOM_KEYS, k ∉ MackieHandler.initZoomState.keys) ∧
      MackieHandler.zoom_handle_keys MackieHandler.initZoomState =
        MackieHandler.initZoomState) :=
  ⟨Relation.ReflTransGen.refl,
   C10_zoom_timer_single.1 _ Relation.ReflTransGen.refl,
   ⟨rfl, C10_zoom_timer_single.2.2.1 _ rfl⟩,
   ⟨by decide, C10_zoom_timer_single.2.2.2.2 _ (by decide)⟩⟩
